import Mathlib

/-!
Verification of the RtMidi (2.1.0) realtime input pipeline against its
specification.  The data structures (`MidiMessage`, `MidiQueue`,
`RtMidiInData`, the pre-C++11 reference-counted `Pointer`, the
`RtMidiError::Type` severity enumeration) are embedded from `src/RtMidi.h`.
Operations whose implementations live outside the repository snapshot
(only their declarations appear in the header) are modelled from the
specification; each such definition carries a doc comment starting with
`Modelled from the spec:`.
-/

namespace RtMidiSpec

/-- Embedded from src/RtMidi.h (RtMidiError::Type): the severity taxonomy. -/
inductive RtMidiErrorType where
  | WARNING
  | DEBUG_WARNING
  | UNSPECIFIED
  | NO_DEVICES_FOUND
  | INVALID_DEVICE
  | MEMORY_ERROR
  | INVALID_PARAMETER
  | INVALID_USE
  | DRIVER_ERROR
  | SYSTEM_ERROR
  | THREAD_ERROR
deriving DecidableEq, Repr

/-- Embedded from src/RtMidi.h (MidiInApi::MidiMessage): a vector of data
bytes plus a timestamp.  The C++ `double` timestamp is modelled as a
rational number (the claims only use exact arithmetic on timestamps). -/
structure MidiMessage where
  bytes : List Nat
  timeStamp : Rat
deriving DecidableEq, Repr

/-- Embedded from src/RtMidi.h: the MidiMessage default constructor
`bytes(0), timeStamp(0.0)`. -/
def MidiMessage.init : MidiMessage := ⟨[], 0⟩

instance : Inhabited MidiMessage := ⟨MidiMessage.init⟩

/-- Embedded from src/RtMidi.h (MidiInApi::MidiQueue): a ring buffer with
`front`, `back`, `size`, `ringSize` and the backing array `ring`
(modelled as a list of length `ringSize`). -/
structure MidiQueue where
  front : Nat
  back : Nat
  size : Nat
  ringSize : Nat
  ring : List MidiMessage
deriving DecidableEq, Repr

/-- Embedded from src/RtMidi.h: the MidiQueue default constructor
`front(0), back(0), size(0), ringSize(0)` (no ring allocated). -/
def MidiQueue.init : MidiQueue := ⟨0, 0, 0, 0, []⟩

/-- Modelled from the spec: the `MidiInApi(queueSizeLimit)` constructor
(implementation not under src/) allocates the ring with capacity
`queueSizeLimit`; the queue starts empty. -/
def MidiQueue.mkEmpty (cap : Nat) : MidiQueue :=
  ⟨0, 0, 0, cap, List.replicate cap MidiMessage.init⟩

/-- Modelled from the spec: `push(Message) -> bool` returns false (message
dropped, queue untouched) if `size == capacity`; otherwise it writes the
message at `back`, advances `back` cyclically and increments `size`
(implementation not under src/, only the MidiQueue struct is). -/
def MidiQueue.push (q : MidiQueue) (m : MidiMessage) : MidiQueue × Bool :=
  if q.size = q.ringSize then (q, false)
  else ({ q with ring := q.ring.set q.back m,
                 back := (q.back + 1) % q.ringSize,
                 size := q.size + 1 }, true)

/-- Modelled from the spec: `pop() -> Message?` returns the message at
`front` and removes it, advancing `front` cyclically, or returns "empty"
when `size == 0` (implementation not under src/). -/
def MidiQueue.pop (q : MidiQueue) : MidiQueue × Option MidiMessage :=
  if q.size = 0 then (q, none)
  else ({ q with front := (q.front + 1) % q.ringSize,
                 size := q.size - 1 },
        some (q.ring.getD q.front MidiMessage.init))

/-- The logical FIFO content of the ring buffer: the `size` messages
starting at `front`, read cyclically. -/
def MidiQueue.contents (q : MidiQueue) : List MidiMessage :=
  (List.range q.size).map
    (fun i => q.ring.getD ((q.front + i) % q.ringSize) MidiMessage.init)

/-- Structural well-formedness of the ring buffer: the backing store has
length `ringSize`, at most `ringSize` messages are held, `back` is the
cyclic successor of the occupied segment, and `front` is a valid index. -/
def MidiQueue.WF (q : MidiQueue) : Prop :=
  q.ring.length = q.ringSize ∧ q.size ≤ q.ringSize
    ∧ q.back = (q.front + q.size) % q.ringSize
    ∧ (q.ringSize = 0 ∨ q.front < q.ringSize)

instance (q : MidiQueue) : Decidable q.WF := by
  unfold MidiQueue.WF; exact inferInstance

/-- Push a whole sequence of messages in order. -/
def MidiQueue.pushAll (q : MidiQueue) : List MidiMessage → MidiQueue
  | [] => q
  | m :: ms => MidiQueue.pushAll (q.push m).1 ms

/-- The messages of a push sequence that are retained (push returned true)
rather than dropped. -/
def MidiQueue.retained (q : MidiQueue) : List MidiMessage → List MidiMessage
  | [] => []
  | m :: ms =>
    if (q.push m).2 then m :: MidiQueue.retained (q.push m).1 ms
    else MidiQueue.retained (q.push m).1 ms

/-- Pop `n` times, collecting the successfully popped messages and
stopping at the first "empty" result. -/
def MidiQueue.drainN : Nat → MidiQueue → List MidiMessage
  | 0, _ => []
  | n + 1, q =>
    match q.pop with
    | (q', some m) => m :: MidiQueue.drainN n q'
    | (_, none) => []

/-- Pop until the queue reports empty (fuelled by `size`). -/
def MidiQueue.drain (q : MidiQueue) : List MidiMessage :=
  MidiQueue.drainN q.size q

/-- Poll `n` times, recording each poll result including the explicit
"no message" results. -/
def MidiQueue.polls (q : MidiQueue) : Nat → List (Option MidiMessage)
  | 0 => []
  | n + 1 => (q.pop).2 :: MidiQueue.polls (q.pop).1 n

theorem getD_set_ne {α : Type} (l : List α) (a d : α) {i j : Nat} (h : i ≠ j) :
    (l.set i a).getD j d = l.getD j d := by
  simp [List.getD_eq_getElem?_getD, List.getElem?_set_ne h]

theorem getD_set_self {α : Type} (l : List α) (a d : α) {i : Nat}
    (h : i < l.length) :
    (l.set i a).getD i d = a := by
  simp [List.getD_eq_getElem?_getD, List.getElem?_set_eq_of_lt a h]

theorem mod_index_ne {R i s fr : Nat} (his : i < s) (hsR : s < R) :
    (fr + i) % R ≠ (fr + s) % R := by
  intro h
  have h2 : i % R = s % R := (Nat.ModEq.refl fr).add_left_cancel h
  rw [Nat.mod_eq_of_lt (his.trans hsR), Nat.mod_eq_of_lt hsR] at h2
  omega

theorem push_full {q : MidiQueue} (m : MidiMessage) (h : q.size = q.ringSize) :
    q.push m = (q, false) := by
  simp [MidiQueue.push, h]

theorem push_eq_of_not_full {q : MidiQueue} (m : MidiMessage)
    (hne : q.size ≠ q.ringSize) :
    q.push m =
      ({ q with ring := q.ring.set q.back m,
                back := (q.back + 1) % q.ringSize,
                size := q.size + 1 }, true) := by
  simp [MidiQueue.push, hne]

theorem push_of_not_full {q : MidiQueue} (m : MidiMessage) (hwf : q.WF)
    (h : q.size < q.ringSize) :
    (q.push m).2 = true ∧ (q.push m).1.WF
      ∧ (q.push m).1.size = q.size + 1
      ∧ (q.push m).1.ringSize = q.ringSize
      ∧ (q.push m).1.contents = q.contents ++ [m] := by
  obtain ⟨hlen, hsize, hback, hfr⟩ := hwf
  have hR : 0 < q.ringSize := lt_of_le_of_lt (Nat.zero_le _) h
  have hne : q.size ≠ q.ringSize := Nat.ne_of_lt h
  rw [push_eq_of_not_full m hne]
  refine ⟨rfl, ⟨?_, ?_, ?_, ?_⟩, rfl, rfl, ?_⟩
  · dsimp only
    simpa using hlen
  · dsimp only
    omega
  · dsimp only
    rw [hback, Nat.mod_add_mod, Nat.add_assoc]
  · dsimp only
    rcases hfr with h0 | hf
    · exact Or.inr (by omega)
    · exact Or.inr hf
  · simp only [MidiQueue.contents]
    rw [List.range_succ, List.map_append]
    congr 1
    · apply List.map_congr_left
      intro i hi
      have hi' : i < q.size := List.mem_range.mp hi
      apply getD_set_ne
      rw [hback]
      exact (mod_index_ne hi' h).symm
    · simp only [List.map_cons, List.map_nil]
      congr 1
      rw [← hback]
      apply getD_set_self
      rw [hlen, hback]
      exact Nat.mod_lt _ hR

theorem pop_eq_of_nonempty {q : MidiQueue} (hne : q.size ≠ 0) :
    q.pop =
      ({ q with front := (q.front + 1) % q.ringSize, size := q.size - 1 },
       some (q.ring.getD q.front MidiMessage.init)) := by
  simp [MidiQueue.pop, hne]

theorem pop_of_nonempty {q : MidiQueue} (hwf : q.WF) (h : 0 < q.size) :
    (q.pop).2 = some (q.ring.getD q.front MidiMessage.init)
      ∧ (q.pop).1.WF
      ∧ (q.pop).1.size = q.size - 1
      ∧ (q.pop).1.ringSize = q.ringSize
      ∧ q.contents = q.ring.getD q.front MidiMessage.init :: (q.pop).1.contents := by
  obtain ⟨hlen, hsize, hback, hfr⟩ := hwf
  have hne : q.size ≠ 0 := by omega
  have hR : 0 < q.ringSize := by omega
  have hfr' : q.front < q.ringSize := by
    rcases hfr with h0 | hf
    · omega
    · exact hf
  rw [pop_eq_of_nonempty hne]
  refine ⟨rfl, ⟨hlen, by dsimp only; omega, ?_, Or.inr (Nat.mod_lt _ hR)⟩,
    rfl, rfl, ?_⟩
  · dsimp only
    rw [hback, Nat.mod_add_mod]
    have harith : q.front + 1 + (q.size - 1) = q.front + q.size := by omega
    rw [harith]
  · simp only [MidiQueue.contents]
    obtain ⟨s, hs⟩ : ∃ s, q.size = s + 1 := ⟨q.size - 1, by omega⟩
    rw [hs]
    rw [List.range_succ_eq_map, List.map_cons, List.map_map]
    congr 1
    · rw [Nat.add_zero, Nat.mod_eq_of_lt hfr']
    · apply List.map_congr_left
      intro i _
      simp only [Function.comp_apply, Nat.mod_add_mod, Nat.succ_eq_add_one]
      have harith : q.front + (i + 1) = q.front + 1 + i := by omega
      rw [harith]

theorem drainN_eq_contents :
    ∀ (n : Nat) (q : MidiQueue), q.WF → q.size = n →
      MidiQueue.drainN n q = q.contents := by
  intro n
  induction n with
  | zero =>
    intro q _ hs
    simp [MidiQueue.drainN, MidiQueue.contents, hs]
  | succ k ih =>
    intro q hwf hs
    have h : 0 < q.size := by omega
    have hne : q.size ≠ 0 := by omega
    obtain ⟨_, hwf', hsize', _, hcont⟩ := pop_of_nonempty hwf h
    rw [pop_eq_of_nonempty hne] at hwf' hsize' hcont
    dsimp only at hwf' hsize' hcont
    simp only [MidiQueue.drainN, pop_eq_of_nonempty hne]
    rw [ih _ hwf' (by dsimp only; omega)]
    exact hcont.symm

theorem pushAll_spec {q : MidiQueue} (hwf : q.WF) (ms : List MidiMessage) :
    (q.pushAll ms).WF ∧ (q.pushAll ms).ringSize = q.ringSize
      ∧ (q.pushAll ms).contents = q.contents ++ q.retained ms := by
  induction ms generalizing q with
  | nil => simp [MidiQueue.pushAll, MidiQueue.retained, hwf]
  | cons m ms ih =>
    by_cases hfull : q.size = q.ringSize
    · have hp : q.push m = (q, false) := push_full m hfull
      simp only [MidiQueue.pushAll, MidiQueue.retained, hp]
      simpa using ih hwf
    · have h : q.size < q.ringSize := lt_of_le_of_ne hwf.2.1 hfull
      obtain ⟨h2, hwf', _, hrs, hcont⟩ := push_of_not_full m hwf h
      simp only [MidiQueue.pushAll, MidiQueue.retained, h2, if_true]
      obtain ⟨w1, w2, w3⟩ := ih hwf'
      refine ⟨w1, by rw [w2, hrs], ?_⟩
      rw [w3, hcont]
      simp

/-- C1: for a well-formed MidiQueue, push returns false and leaves the
queue unchanged exactly when `size = ringSize` (the incoming message is
dropped); otherwise push succeeds, appending the message at the back of
the FIFO content and incrementing `size`.  Consequently any push sequence
keeps at most `ringSize` messages, and draining the queue by repeated
pops returns exactly the retained (non-dropped) messages in FIFO order. -/
theorem C1_queue_push_drop_fifo (q : MidiQueue) (m : MidiMessage)
    (ms : List MidiMessage) (hwf : q.WF) :
    (((q.push m).2 = false ∧ (q.push m).1 = q) ↔ q.size = q.ringSize)
    ∧ (q.size ≠ q.ringSize →
        (q.push m).2 = true ∧ (q.push m).1.size = q.size + 1
          ∧ (q.push m).1.contents = q.contents ++ [m])
    ∧ (q.pushAll ms).size ≤ q.ringSize
    ∧ (q.pushAll ms).drain = q.contents ++ q.retained ms := by
  obtain ⟨w1, w2, w3⟩ := pushAll_spec hwf ms
  refine ⟨?_, ?_, ?_, ?_⟩
  · constructor
    · rintro ⟨h2, _⟩
      by_contra hne
      have ht := (push_of_not_full m hwf (lt_of_le_of_ne hwf.2.1 hne)).1
      rw [ht] at h2
      exact Bool.noConfusion h2
    · intro hfull
      rw [push_full m hfull]
      exact ⟨rfl, rfl⟩
  · intro hne
    obtain ⟨a, _, c, _, e⟩ := push_of_not_full m hwf (lt_of_le_of_ne hwf.2.1 hne)
    exact ⟨a, c, e⟩
  · calc (q.pushAll ms).size ≤ (q.pushAll ms).ringSize := w1.2.1
      _ = q.ringSize := w2
  · rw [MidiQueue.drain, drainN_eq_contents _ _ w1 rfl, w3]

/-- Concrete queue and message sequence used to witness C1. -/
def c1q : MidiQueue := MidiQueue.mkEmpty 2

/-- Concrete message sequence used to witness C1 (three pushes into a
capacity-2 queue, so the last one is dropped). -/
def c1ms : List MidiMessage := [⟨[1], 0⟩, ⟨[2], 1⟩, ⟨[3], 2⟩]

/-- Witness for C1 at a concrete capacity-2 queue and three pushes. -/
theorem C1_queue_push_drop_fifo_witness :
    c1q.WF ∧
    ((((c1q.push MidiMessage.init).2 = false
        ∧ (c1q.push MidiMessage.init).1 = c1q) ↔ c1q.size = c1q.ringSize)
    ∧ (c1q.size ≠ c1q.ringSize →
        (c1q.push MidiMessage.init).2 = true
          ∧ (c1q.push MidiMessage.init).1.size = c1q.size + 1
          ∧ (c1q.push MidiMessage.init).1.contents
              = c1q.contents ++ [MidiMessage.init])
    ∧ (c1q.pushAll c1ms).size ≤ c1q.ringSize
    ∧ (c1q.pushAll c1ms).drain = c1q.contents ++ c1q.retained c1ms) :=
  ⟨by decide, C1_queue_push_drop_fifo c1q MidiMessage.init c1ms (by decide)⟩

/-- The six messages of the C2 scenario, timestamped with the logical
times 0,1,2,3,4,5. -/
def c2Inputs : List MidiMessage :=
  [⟨[], 0⟩, ⟨[], 1⟩, ⟨[], 2⟩, ⟨[], 3⟩, ⟨[], 4⟩, ⟨[], 5⟩]

/-- C2 counterexample: under the push contract (overflow drops the
INCOMING message), a capacity-4 queue that receives messages timestamped
0,1,2,3,4,5 does NOT yield 2,3,4,5 on six polls — the claim that the
first two pushed messages are the dropped ones is false. -/
theorem C2_counterexample :
    ¬ ((((MidiQueue.mkEmpty 4).pushAll c2Inputs).polls 6).map
          (fun r => r.map MidiMessage.timeStamp)
        = [some 2, some 3, some 4, some 5, none, none]) := by decide

/-- C2 amended: six polls yield the messages timestamped 0,1,2,3 followed
by two "no message" results; the LAST two pushed messages (times 4 and 5)
are the ones dropped by the full queue. -/
theorem C2_amended_polls :
    (((MidiQueue.mkEmpty 4).pushAll c2Inputs).polls 6).map
        (fun r => r.map MidiMessage.timeStamp)
      = [some 0, some 1, some 2, some 3, none, none] := by decide

/-- Embedded from src/RtMidi.h (MidiInApi::RtMidiInData): the per-connection
input state.  The C++ raw pointers `apiData`, `userCallback`, `userData`
carry no information relevant to the claims and are omitted; all
claim-relevant fields are kept. -/
structure RtMidiInData where
  queue : MidiQueue
  message : MidiMessage
  ignoreFlags : Nat
  doInput : Bool
  firstMessage : Bool
  usingCallback : Bool
  continueSysex : Bool
deriving DecidableEq, Repr

/-- Embedded from src/RtMidi.h: the RtMidiInData default constructor
`ignoreFlags(7), doInput(false), firstMessage(true), usingCallback(false),
continueSysex(false)` with default-constructed queue and message. -/
def RtMidiInData.mkDefault : RtMidiInData :=
  ⟨MidiQueue.init, MidiMessage.init, 7, false, true, false, false⟩

/-- Modelled from the spec: `ignoreTypes(midiSysex, midiTime, midiSense)`
(MidiInApi::ignoreTypes is declared in the header but implemented in
RtMidi.cpp, not under src/): rebuilds the three-bit mask, bit 1 for
sysex, bit 2 for timing, bit 4 for active sensing. -/
def RtMidiInData.ignoreTypes (d : RtMidiInData)
    (midiSysex midiTime midiSense : Bool) : RtMidiInData :=
  { d with ignoreFlags :=
      (if midiSysex then 1 else 0) + (if midiTime then 2 else 0)
        + (if midiSense then 4 else 0) }

/-- Modelled from the spec: whether a completed message (given by its byte
sequence) is of a type marked "ignore" by the three-bit mask: sysex
(leading byte 0xF0) under bit 1, timing clock (0xF8) under bit 2, active
sensing (0xFE) under bit 4. -/
def msgIgnored (flags : Nat) (m : List Nat) : Bool :=
  (m.headD 0 == 0xF0 && flags &&& 1 != 0)
    || (m.headD 0 == 0xF8 && flags &&& 2 != 0)
    || (m.headD 0 == 0xFE && flags &&& 4 != 0)

/-- C10: a default-constructed RtMidiInData has all three ignore bits set
(`ignoreFlags = 7`), hence sysex, timing-clock and active-sensing messages
are all marked "ignore"; it starts in queue mode (`usingCallback = false`)
and with `firstMessage = true`; clearing the flags via ignoreTypes ends
that initial discarding. -/
theorem C10_default_input_state :
    RtMidiInData.mkDefault.ignoreFlags = 7
    ∧ msgIgnored RtMidiInData.mkDefault.ignoreFlags [0xF0, 0xF7] = true
    ∧ msgIgnored RtMidiInData.mkDefault.ignoreFlags [0xF8] = true
    ∧ msgIgnored RtMidiInData.mkDefault.ignoreFlags [0xFE] = true
    ∧ RtMidiInData.mkDefault.usingCallback = false
    ∧ RtMidiInData.mkDefault.firstMessage = true
    ∧ (RtMidiInData.mkDefault.ignoreTypes false false false).ignoreFlags = 0 := by
  decide

/-- Embedded from src/RtMidi.h (PortDescriptor::Pointer::countPointer, the
pre-C++11 branch): the shared control block holding the reference count
and the descriptor.  `descriptorAlive` models `descriptor` being non-null
and not yet deleted. -/
structure countPointer where
  count : Int
  descriptorAlive : Bool
deriving DecidableEq, Repr

namespace Pointer

/-- Embedded from src/RtMidi.h: `Pointer(PortDescriptor * p)` allocates a
control block with `count = 1` holding the descriptor. -/
def create : countPointer := ⟨1, true⟩

/-- Embedded from src/RtMidi.h: the copy constructor
`Pointer(const Pointer &)` shares the control block and does `count++`. -/
def copy (cp : countPointer) : countPointer :=
  { cp with count := cp.count + 1 }

/-- Embedded from src/RtMidi.h: the destructor `~Pointer()`: if the
descriptor is already gone the block is dropped without decrementing;
otherwise `--count`, and when it reaches 0 the descriptor is deleted. -/
def destroy (cp : countPointer) : countPointer :=
  if cp.descriptorAlive = false then cp
  else if cp.count - 1 = 0 then ⟨0, false⟩
  else { cp with count := cp.count - 1 }

end Pointer

/-- C7: copying a Pointer handle increments the shared reference count and
never touches the descriptor; destroying a handle decrements the count and
deletes the descriptor exactly when the count reaches zero; in particular
destroying one handle while at least one other is still held (count ≥ 2)
leaves the descriptor alive. -/
theorem C7_pointer_refcount (cp : countPointer)
    (halive : cp.descriptorAlive = true) (hpos : 1 ≤ cp.count) :
    (Pointer.copy cp).count = cp.count + 1
    ∧ (Pointer.copy cp).descriptorAlive = true
    ∧ (Pointer.destroy cp).count = cp.count - 1
    ∧ ((Pointer.destroy cp).descriptorAlive = false ↔ cp.count = 1)
    ∧ (2 ≤ cp.count → (Pointer.destroy cp).descriptorAlive = true) := by
  have hal : ¬ (cp.descriptorAlive = false) := by simp [halive]
  by_cases hone : cp.count - 1 = 0
  · have h1 : cp.count = 1 := by omega
    simp [Pointer.copy, Pointer.destroy, hal, hone, halive, h1]
  · have h1 : cp.count ≠ 1 := by omega
    simp [Pointer.copy, Pointer.destroy, hal, hone, halive, h1]

/-- Witness for C7 at a control block with two holders. -/
theorem C7_pointer_refcount_witness :
    (Pointer.copy ⟨2, true⟩).count = (2 : Int) + 1
    ∧ (Pointer.copy ⟨2, true⟩).descriptorAlive = true
    ∧ (Pointer.destroy ⟨2, true⟩).count = (2 : Int) - 1
    ∧ ((Pointer.destroy ⟨2, true⟩).descriptorAlive = false ↔ (2 : Int) = 1)
    ∧ ((2 : Int) ≤ 2 → (Pointer.destroy ⟨2, true⟩).descriptorAlive = true) :=
  C7_pointer_refcount ⟨2, true⟩ (by decide) (by decide)

/-- The observable connection state of a MidiApi object: the `connected_`
flag embedded from src/RtMidi.h (MidiApi), together with the backend's
enumerated port names (the data `getPortName` consults). -/
structure MidiApiState where
  connected_ : Bool
  portNames : List String
deriving DecidableEq, Repr

/-- Modelled from the spec: `getPortName(portNumber)` (declared in
src/RtMidi.h with "An empty string is returned if an invalid port
specifier is provided", implemented per backend outside src/): a valid
index returns that port's name; an invalid index returns the empty string,
reports a WARNING through the error callback, and leaves the connection
state untouched. -/
def getPortName (s : MidiApiState) (portNumber : Nat) :
    String × Option RtMidiErrorType × MidiApiState :=
  if portNumber < s.portNames.length then
    (s.portNames.getD portNumber "", none, s)
  else
    ("", some RtMidiErrorType.WARNING, s)

/-- Modelled from the spec: `closePort()` (pure virtual in src/RtMidi.h,
implemented per backend outside src/) closes the connection if one is
open: the `connected_` flag is cleared; closing a closed connection does
nothing. -/
def closePort (s : MidiApiState) : MidiApiState :=
  { s with connected_ := false }

/-- C8: for every port number that does not refer to an existing port,
getPortName returns the empty string, reports the condition at WARNING
severity, and leaves the connection state (in particular `connected_`)
unchanged. -/
theorem C8_getPortName_invalid (s : MidiApiState) (n : Nat)
    (h : s.portNames.length ≤ n) :
    (getPortName s n).1 = ""
    ∧ (getPortName s n).2.1 = some RtMidiErrorType.WARNING
    ∧ (getPortName s n).2.2 = s := by
  have hne : ¬ n < s.portNames.length := by omega
  simp [getPortName, hne]

/-- Witness for C8 on a backend with one port, queried at index 1. -/
theorem C8_getPortName_invalid_witness :
    (getPortName ⟨true, ["port0"]⟩ 1).1 = ""
    ∧ (getPortName ⟨true, ["port0"]⟩ 1).2.1 = some RtMidiErrorType.WARNING
    ∧ (getPortName ⟨true, ["port0"]⟩ 1).2.2 = ⟨true, ["port0"]⟩ :=
  C8_getPortName_invalid ⟨true, ["port0"]⟩ 1 (by decide)

/-- C9: closePort is idempotent — closing twice yields the same state as
closing once; after a close the connection is closed, and closing an
already-closed connection is a no-op. -/
theorem C9_closePort_idempotent (s : MidiApiState) :
    closePort (closePort s) = closePort s
    ∧ (closePort s).connected_ = false
    ∧ (s.connected_ = false → closePort s = s) := by
  refine ⟨rfl, rfl, ?_⟩
  intro h
  cases s with
  | mk c p =>
    dsimp only at h
    subst h
    rfl

/-- Witness for C9: closing an already-closed connection is a no-op. -/
theorem C9_closePort_idempotent_witness :
    closePort ⟨false, []⟩ = (⟨false, []⟩ : MidiApiState) :=
  (C9_closePort_idempotent ⟨false, []⟩).2.2 rfl

/-- A backend port as the claims see it: a distinguishing identity plus
the capability mask of src/RtMidi.h (PortCapabilities: INPUT = 1,
OUTPUT = 2, INOUTPUT = 3). -/
structure Port where
  id : Nat
  capabilities : Nat
deriving DecidableEq, Repr

/-- Whether a port's capability mask matches a capability filter (shares
at least one capability bit). -/
def portMatches (p : Port) (f : Nat) : Bool :=
  p.capabilities &&& f != 0

/-- A backend as the enumeration claims see it: its native ports and
whether it exercises the documented laxness of also reporting ports of
the complementary capability that it cannot itself use. -/
structure Backend where
  ports : List Port
  lax : Bool
deriving DecidableEq, Repr

/-- Modelled from the spec: `getPortList(capabilities)` (pure virtual in
src/RtMidi.h, implemented per backend outside src/): returns every port
matching the filter, and — when the backend is lax, as the header note
allows — possibly also ports that only carry the complementary
capability (`3 ^^^ f`). -/
def getPortList (b : Backend) (f : Nat) : List Port :=
  b.ports.filter
    (fun p => portMatches p f || (b.lax && portMatches p (3 ^^^ f)))

/-- C6: getPortList never omits a port whose capability mask matches the
filter, and everything it returns is an enumerable port that matches
either the filter or (laxness) the complementary capability: the result
may be a superset of the strictly matching set but never a subset. -/
theorem C6_getPortList_superset_never_subset (b : Backend) (f : Nat) (p : Port) :
    (p ∈ b.ports → portMatches p f = true → p ∈ getPortList b f)
    ∧ (p ∈ getPortList b f →
        p ∈ b.ports
          ∧ (portMatches p f = true ∨ portMatches p (3 ^^^ f) = true)) := by
  constructor
  · intro hmem hmatch
    simp only [getPortList, List.mem_filter]
    exact ⟨hmem, by simp [hmatch]⟩
  · intro hmem
    rw [getPortList, List.mem_filter] at hmem
    obtain ⟨h1, h2⟩ := hmem
    refine ⟨h1, ?_⟩
    rcases Bool.or_eq_true_iff.mp h2 with h | h
    · exact Or.inl h
    · exact Or.inr (Bool.and_eq_true_iff.mp h).2

/-- Witness for C6 on a lax input backend with one input-only and one
output-only port, filtered for INPUT. -/
theorem C6_getPortList_witness :
    (⟨0, 1⟩ : Port) ∈ getPortList ⟨[⟨0, 1⟩, ⟨1, 2⟩], true⟩ 1
    ∧ ((⟨1, 2⟩ : Port) ∈ getPortList ⟨[⟨0, 1⟩, ⟨1, 2⟩], true⟩ 1 →
        (⟨1, 2⟩ : Port) ∈ ([⟨0, 1⟩, ⟨1, 2⟩] : List Port)
          ∧ (portMatches ⟨1, 2⟩ 1 = true ∨ portMatches ⟨1, 2⟩ (3 ^^^ 1) = true)) :=
  ⟨(C6_getPortList_superset_never_subset ⟨[⟨0, 1⟩, ⟨1, 2⟩], true⟩ 1 ⟨0, 1⟩).1
      (by decide) (by decide),
   (C6_getPortList_superset_never_subset ⟨[⟨0, 1⟩, ⟨1, 2⟩], true⟩ 1 ⟨1, 2⟩).2⟩

/-- The producer-side timestamping state: whether the next message is the
first one of the connection (RtMidiInData.firstMessage in src/RtMidi.h)
and the arrival time of the previous message. -/
structure TimeState where
  firstMessage : Bool
  lastTime : Rat
deriving DecidableEq, Repr

/-- Modelled from the spec: the backend input handler computes each
delivered message's timestamp as the delta from the previous message's
arrival time, except that the very first message after the connection is
opened gets delta 0 and only establishes the reference. -/
def stampMessage (st : TimeState) (now : Rat) : TimeState × Rat :=
  if st.firstMessage then (⟨false, now⟩, 0)
  else (⟨false, now⟩, now - st.lastTime)

/-- Timestamp a whole sequence of arrival times, returning the deltas. -/
def stampAll (st : TimeState) : List Rat → List Rat
  | [] => []
  | t :: ts => (stampMessage st t).2 :: stampAll (stampMessage st t).1 ts

/-- Consecutive differences of a list of arrival times, seeded with the
reference time. -/
def deltas : Rat → List Rat → List Rat
  | _, [] => []
  | prev, t :: ts => (t - prev) :: deltas t ts

theorem stampAll_not_first (prev : Rat) (ts : List Rat) :
    stampAll ⟨false, prev⟩ ts = deltas prev ts := by
  induction ts generalizing prev with
  | nil => rfl
  | cons t ts ih =>
    simp [stampAll, deltas, stampMessage, ih t]

/-- C5: starting from the state of a fresh connection (`firstMessage` as
default-constructed in src/RtMidi.h, i.e. true, with any stale reference
time), the first delivered message carries delta 0 and establishes the
reference: the following deltas are exactly the consecutive differences
of the arrival times seeded at the first message's arrival. -/
theorem C5_first_message_delta_zero (l0 t : Rat) (ts : List Rat) :
    stampAll ⟨RtMidiInData.mkDefault.firstMessage, l0⟩ (t :: ts)
      = 0 :: deltas t ts := by
  have h : RtMidiInData.mkDefault.firstMessage = true := rfl
  rw [h]
  simp [stampAll, stampMessage, stampAll_not_first t ts]

/-- The byte count at which a MIDI message with the given status byte is
complete: 3 for channel messages except the 2-byte program-change and
channel-pressure families, 2 or 3 for the fixed-size system-common
messages, 1 for the single-byte ones; 0 for sysex (0xF0), which is
variable length and never completed by a count. -/
def expectedLength (s : Nat) : Nat :=
  if s < 0xC0 then 3
  else if s < 0xE0 then 2
  else if s < 0xF0 then 3
  else if s = 0xF0 then 0
  else if s = 0xF1 then 2
  else if s = 0xF2 then 3
  else if s = 0xF3 then 2
  else 1

/-- The assembler's live state: the byte buffer of the message being
assembled (RtMidiInData.message in src/RtMidi.h).  A pending sysex
continuation (RtMidiInData.continueSysex) is represented by the buffer
holding an unterminated sysex, i.e. starting with 0xF0. -/
structure AsmState where
  acc : List Nat
deriving DecidableEq, Repr

/-- The assembler state of a fresh connection: empty buffer. -/
def AsmState.start : AsmState := ⟨[]⟩

/-- Whether the buffer holds an unterminated sysex message (models the
continueSysex flag of src/RtMidi.h). -/
def AsmState.sysexPending (st : AsmState) : Bool :=
  st.acc.headD 0 == 0xF0

/-- Modelled from the spec: one step of the per-byte input
filter/assembler (the backend handlers implementing it are in RtMidi.cpp,
not under src/).  Emits the list of messages COMPLETED by this byte,
before any ignore filtering:
a real-time byte (0xF8 and above) is its own single-byte message and
leaves the assembly undisturbed; 0xF7 terminates a pending sysex (and is
discarded when detached); any other status byte first closes a pending
sysex at the boundary, discards a non-sysex incomplete message, and
starts a new message (already complete if single-byte); a data byte with
nothing pending is discarded as glitch, extends a pending sysex, and
otherwise extends the current message, completing it at its expected
length. -/
def stepByte (st : AsmState) (b : Nat) : AsmState × List (List Nat) :=
  if 0xF8 ≤ b then
    (st, [[b]])
  else if b = 0xF7 then
    if st.sysexPending then (AsmState.start, [st.acc ++ [b]]) else (st, [])
  else if 0x80 ≤ b then
    let closed := if st.sysexPending then [st.acc] else []
    if expectedLength b = 1 then (AsmState.start, closed ++ [[b]])
    else (⟨[b]⟩, closed)
  else if st.acc = [] then
    (st, [])
  else if st.sysexPending then
    (⟨st.acc ++ [b]⟩, [])
  else if st.acc.length + 1 = expectedLength (st.acc.headD 0) then
    (AsmState.start, [st.acc ++ [b]])
  else
    (⟨st.acc ++ [b]⟩, [])

/-- Run the assembler over a byte stream, collecting every completed
message (no ignore filtering). -/
def processBytes (st : AsmState) : List Nat → AsmState × List (List Nat)
  | [] => (st, [])
  | b :: rest =>
    let s1 := stepByte st b
    let s2 := processBytes s1.1 rest
    (s2.1, s1.2 ++ s2.2)

/-- A delivered message, tagged by the dispatch mode that carried it:
invoked on the user callback, or pushed into the queue for polling. -/
inductive Delivery where
  | callback (m : List Nat)
  | queued (m : List Nat)
deriving DecidableEq, Repr

/-- Modelled from the spec: DispatchMode routing — with a callback
registered the completed message is handed to the callback, otherwise it
is pushed into the queue. -/
def dispatchOne (usingCallback : Bool) (m : List Nat) : Delivery :=
  if usingCallback then Delivery.callback m else Delivery.queued m

/-- Modelled from the spec: the full per-byte input pipeline — assemble,
drop completed messages whose type is marked "ignore", and hand every
surviving message to the active dispatch mode. -/
def runInput (flags : Nat) (cb : Bool) (st : AsmState) :
    List Nat → AsmState × List Delivery
  | [] => (st, [])
  | b :: rest =>
    let s1 := stepByte st b
    let s2 := runInput flags cb s1.1 rest
    (s2.1,
     (s1.2.filter (fun m => !msgIgnored flags m)).map (dispatchOne cb) ++ s2.2)

theorem processBytes_append (st : AsmState) (xs ys : List Nat) :
    processBytes st (xs ++ ys)
      = ((processBytes (processBytes st xs).1 ys).1,
         (processBytes st xs).2 ++ (processBytes (processBytes st xs).1 ys).2) := by
  induction xs generalizing st with
  | nil => simp [processBytes]
  | cons b rest ih =>
    simp only [List.cons_append, processBytes]
    simp only [List.append_eq]
    rw [ih]
    simp [List.append_assoc]

theorem runInput_eq_filter (flags : Nat) (cb : Bool) (st : AsmState)
    (bs : List Nat) :
    runInput flags cb st bs
      = ((processBytes st bs).1,
         ((processBytes st bs).2.filter (fun m => !msgIgnored flags m)).map
           (dispatchOne cb)) := by
  induction bs generalizing st with
  | nil => simp [runInput, processBytes]
  | cons b rest ih =>
    simp only [runInput, processBytes, ih]
    simp [List.filter_append, List.map_append]

theorem count_filter_if {α : Type} [BEq α] [LawfulBEq α] (p : α → Bool)
    (l : List α) (a : α) :
    (l.filter p).count a = if p a = true then l.count a else 0 := by
  induction l with
  | nil => simp
  | cons x xs ih =>
    by_cases hx : p x = true
    · rw [List.filter_cons_of_pos hx, List.count_cons, List.count_cons, ih]
      by_cases hpa : p a = true
      · simp [hpa]
      · by_cases hax : a = x
        · subst hax
          exact absurd hx hpa
        · have hxa : ¬ (x = a) := fun hc => hax hc.symm
          simp [hpa, hax, hxa]
    · rw [List.filter_cons_of_neg hx, ih, List.count_cons]
      by_cases hpa : p a = true
      · by_cases hax : a = x
        · subst hax
          exact absurd hpa hx
        · have hxa : ¬ (x = a) := fun hc => hax hc.symm
          simp [hpa, hax, hxa]
      · simp [hpa]

theorem count_map_inj {α β : Type} [BEq α] [LawfulBEq α] [BEq β] [LawfulBEq β]
    (f : α → β) (hinj : ∀ a b, f a = f b → a = b) (l : List α) (m : α) :
    (l.map f).count (f m) = l.count m := by
  induction l with
  | nil => rfl
  | cons x xs ih =>
    rw [List.map_cons, List.count_cons, List.count_cons, ih]
    congr 1
    by_cases h : m = x
    · simp [h]
    · have hne : ¬ (f x = f m) := fun hc => h (hinj _ _ hc).symm
      have hxm : ¬ (x = m) := fun hc => h hc.symm
      simp [h, hne, hxm]

theorem count_map_none {α β : Type} [BEq β] [LawfulBEq β]
    (f : α → β) (d : β) (hd : ∀ a, f a ≠ d) (l : List α) :
    (l.map f).count d = 0 := by
  rw [List.count_eq_zero]
  intro hmem
  obtain ⟨x, _, hx⟩ := List.mem_map.mp hmem
  exact hd x hx

/-- C4: over any incoming byte stream, any assembler state, either
dispatch mode and every ignore-flag combination, a completed message of a
type marked "ignore" is never delivered (neither invoked on the callback
nor pushed into the queue), and a completed message whose type is not
marked "ignore" is delivered exactly as many times as it is completed —
each completion delivered exactly once, in the active mode. -/
theorem C4_ignored_never_delivered_others_once (flags : Nat) (cb : Bool)
    (st : AsmState) (bs : List Nat) (m : List Nat) :
    ((runInput flags cb st bs).2.count (Delivery.callback m)
        + (runInput flags cb st bs).2.count (Delivery.queued m))
      = if msgIgnored flags m = true then 0
        else ((processBytes st bs).2.count m) := by
  rw [runInput_eq_filter]
  cases cb with
  | false =>
    have hfun : dispatchOne false = Delivery.queued := by
      funext x
      simp [dispatchOne]
    rw [hfun,
      count_map_none Delivery.queued (Delivery.callback m)
        (fun a h => Delivery.noConfusion h) _,
      count_map_inj Delivery.queued (fun a b h => by cases h; rfl) _ m,
      Nat.zero_add, count_filter_if]
    by_cases him : msgIgnored flags m = true
    · simp [him]
    · simp [him]
  | true =>
    have hfun : dispatchOne true = Delivery.callback := by
      funext x
      simp [dispatchOne]
    rw [hfun,
      count_map_none Delivery.callback (Delivery.queued m)
        (fun a h => Delivery.noConfusion h) _,
      count_map_inj Delivery.callback (fun a b h => by cases h; rfl) _ m,
      Nat.add_zero, count_filter_if]
    by_cases him : msgIgnored flags m = true
    · simp [him]
    · simp [him]

theorem stepByte_sysex_data (pre : List Nat) (b : Nat) (hb : b < 0x80) :
    stepByte ⟨0xF0 :: pre⟩ b = (⟨(0xF0 :: pre) ++ [b]⟩, []) := by
  have h1 : ¬ 0xF8 ≤ b := by omega
  have h2 : b ≠ 0xF7 := by omega
  have h3 : ¬ 0x80 ≤ b := by omega
  simp [stepByte, h1, h2, h3, AsmState.sysexPending]

theorem stepByte_sysex_terminator (pre : List Nat) :
    stepByte ⟨0xF0 :: pre⟩ 0xF7 = (AsmState.start, [(0xF0 :: pre) ++ [0xF7]]) := by
  simp [stepByte, AsmState.sysexPending]

theorem processBytes_sysex_run (mid : List Nat) :
    ∀ pre : List Nat, (∀ b ∈ mid, b < 0x80) →
      processBytes ⟨0xF0 :: pre⟩ (mid ++ [0xF7])
        = (AsmState.start, [(0xF0 :: pre) ++ mid ++ [0xF7]]) := by
  induction mid with
  | nil =>
    intro pre _
    simp only [List.nil_append, processBytes]
    rw [stepByte_sysex_terminator pre]
    simp [processBytes]
  | cons b mid ih =>
    intro pre hb
    have hb0 : b < 0x80 := hb b (List.mem_cons_self b mid)
    simp only [List.cons_append, processBytes]
    simp only [List.append_eq]
    rw [stepByte_sysex_data pre b hb0]
    dsimp only
    rw [List.cons_append,
      ih (pre ++ [b]) (fun x hx => hb x (List.mem_cons_of_mem b hx))]
    simp

/-- C3: a sysex byte sequence starting with 0xF0, carrying data bytes and
terminated by 0xF7, delivered to the assembler of a fresh connection split
across three byte-delivery events, produces exactly one completed Message
whose bytes equal the concatenation of the three deliveries; and with the
ignore-sysex flag set (bit 1), the same three deliveries produce zero
delivered Messages in either dispatch mode. -/
theorem C3_sysex_three_deliveries (d1 d2 d3 mid : List Nat) (flags : Nat)
    (cb : Bool)
    (hsplit : d1 ++ d2 ++ d3 = 0xF0 :: mid ++ [0xF7])
    (hdata : ∀ b ∈ mid, b < 0x80) :
    ((processBytes AsmState.start d1).2
        ++ (processBytes (processBytes AsmState.start d1).1 d2).2
        ++ (processBytes
              (processBytes (processBytes AsmState.start d1).1 d2).1 d3).2
      = [d1 ++ d2 ++ d3])
    ∧ (flags &&& 1 ≠ 0 →
        (runInput flags cb AsmState.start d1).2
          ++ (runInput flags cb (runInput flags cb AsmState.start d1).1 d2).2
          ++ (runInput flags cb
                (runInput flags cb
                  (runInput flags cb AsmState.start d1).1 d2).1 d3).2
        = []) := by
  have hwhole : processBytes AsmState.start (d1 ++ d2 ++ d3)
      = (AsmState.start, [0xF0 :: mid ++ [0xF7]]) := by
    rw [hsplit]
    have hstep : stepByte AsmState.start 0xF0 = (⟨[0xF0]⟩, []) := rfl
    show processBytes AsmState.start (0xF0 :: (mid ++ [0xF7])) = _
    simp only [processBytes, hstep]
    rw [processBytes_sysex_run mid [] hdata]
    simp
  have hdecomp : (processBytes AsmState.start (d1 ++ d2 ++ d3)).2
      = (processBytes AsmState.start d1).2
        ++ (processBytes (processBytes AsmState.start d1).1 d2).2
        ++ (processBytes
              (processBytes (processBytes AsmState.start d1).1 d2).1 d3).2 := by
    rw [processBytes_append AsmState.start (d1 ++ d2) d3,
        processBytes_append AsmState.start d1 d2]
  have hmain : (processBytes AsmState.start d1).2
      ++ (processBytes (processBytes AsmState.start d1).1 d2).2
      ++ (processBytes
            (processBytes (processBytes AsmState.start d1).1 d2).1 d3).2
      = [0xF0 :: mid ++ [0xF7]] := by
    rw [← hdecomp, hwhole]
  constructor
  · rw [hsplit]
    exact hmain
  · intro hflag
    have hflag2 : flags % 2 = 1 := by
      have h2 : flags &&& 1 ≠ 0 := hflag
      rw [Nat.and_one_is_mod] at h2
      omega
    have hp : msgIgnored flags (0xF0 :: (mid ++ [0xF7])) = true := by
      simp [msgIgnored, Nat.and_one_is_mod, hflag2]
    simp only [runInput_eq_filter]
    calc ((processBytes AsmState.start d1).2.filter
            (fun m => !msgIgnored flags m)).map (dispatchOne cb)
          ++ ((processBytes (processBytes AsmState.start d1).1 d2).2.filter
            (fun m => !msgIgnored flags m)).map (dispatchOne cb)
          ++ ((processBytes
                (processBytes (processBytes AsmState.start d1).1 d2).1 d3).2.filter
            (fun m => !msgIgnored flags m)).map (dispatchOne cb)
        = ((((processBytes AsmState.start d1).2
              ++ (processBytes (processBytes AsmState.start d1).1 d2).2
              ++ (processBytes
                    (processBytes (processBytes AsmState.start d1).1 d2).1 d3).2).filter
            (fun m => !msgIgnored flags m)).map (dispatchOne cb)) := by
          simp [List.filter_append, List.map_append, List.append_assoc]
      _ = (([0xF0 :: mid ++ [0xF7]].filter
            (fun m => !msgIgnored flags m)).map (dispatchOne cb)) := by
          rw [hmain]
      _ = [] := by simp [hp]

/-- Witness for C3: the sysex `F0 01 02 F7` delivered in three events
`[F0]`, `[01]`, `[02, F7]`, once with all flags clear (one message equal
to the concatenation) and once with the sysex ignore bit set (nothing
delivered in queue mode). -/
theorem C3_sysex_three_deliveries_witness :
    ((processBytes AsmState.start [0xF0]).2
        ++ (processBytes (processBytes AsmState.start [0xF0]).1 [1]).2
        ++ (processBytes
              (processBytes (processBytes AsmState.start [0xF0]).1 [1]).1
              [2, 0xF7]).2
      = [[0xF0] ++ [1] ++ [2, 0xF7]])
    ∧ ((runInput 1 false AsmState.start [0xF0]).2
        ++ (runInput 1 false (runInput 1 false AsmState.start [0xF0]).1 [1]).2
        ++ (runInput 1 false
              (runInput 1 false
                (runInput 1 false AsmState.start [0xF0]).1 [1]).1 [2, 0xF7]).2
      = []) :=
  ⟨(C3_sysex_three_deliveries [0xF0] [1] [2, 0xF7] [1, 2] 1 false
      (by decide) (by decide)).1,
   (C3_sysex_three_deliveries [0xF0] [1] [2, 0xF7] [1, 2] 1 false
      (by decide) (by decide)).2 (by decide)⟩

end RtMidiSpec
